import Mathlib

/-!
Verification of the self-healing orchestration loop of `protocol_zero`.

The development shallowly embeds the core of the repository:
 - `calculateScore` (src/lib/agents/self-healing/bug-scanner.ts, orchestrator part),
 - `runHealingLoop`'s attempt loop as a fuel-bounded state machine over oracles
   for the external collaborators (test runner, AI scanner, fix engineer, git),
 - `scanForBugs` (bug-scanner.ts) with the inference endpoint abstracted as a
   per-batch outcome oracle,
 - `fixBugsInFile` (fix-engineer.ts) with the model response abstracted,
 - `commitChanges` (repo-manager.ts) over an abstract git state.

JavaScript numbers are modelled as `Nat`/`Int`/`Rat` (`Math.round` of a
non-negative rational is `round` in Mathlib, i.e. floor of x + 1/2); uuid
generation is abstracted (ids are `Nat`); fallible paths return `Except`.
-/

/-- A detected defect, as built by the bug scanner (`HealingBug` in types).
The uuid is abstracted as a `Nat` id; `category`/`severity` are kept as
strings since the TS enums are string unions. -/
structure HealingBug where
  id : Nat
  category : String
  filePath : String
  line : Nat
  message : String
  severity : String
  fixed : Bool
  fixedAtAttempt : Option Nat
deriving DecidableEq

/-- Result of one per-bug fix attempt (`FixResult` in fix-engineer.ts). -/
structure FixResult where
  filePath : String
  bugId : Nat
  description : String
  applied : Bool
  error : Option String
deriving DecidableEq

/-- The score record produced by `calculateScore` (`HealingScore` in types). -/
structure HealingScore where
  totalBugs : Nat
  bugsFixed : Nat
  testsPassed : Bool
  attempts : Nat
  totalCommits : Nat
  timeSeconds : Nat
  speedBonus : Nat
  commitPenalty : Nat
  finalScore : Int
deriving DecidableEq

/-- `SPEED_BONUS_THRESHOLD_SEC` in the orchestrator. -/
def SPEED_BONUS_THRESHOLD_SEC : Nat := 300

/-- `MAX_COMMITS_PENALTY_THRESHOLD` in the orchestrator. -/
def MAX_COMMITS_PENALTY_THRESHOLD : Nat := 20

/-- `MAX_ATTEMPTS` in the orchestrator. -/
def MAX_ATTEMPTS : Nat := 5

/-- `calculateScore` (bug-scanner.ts lines 706-753).  `Math.round` of the
non-negative rational `bugsFixed/totalBugs * 60` equals the Nat division
`(120*bugsFixed + totalBugs) / (2*totalBugs)` (floor of x + 1/2); the final
clamp `Math.max(0, Math.min(100, ...))` is taken over `Int` since the
pre-clamp value can be negative. -/
def calculateScore (bugs : List HealingBug) (testsPassed : Bool)
    (attempts totalCommits timeSeconds : Nat) : HealingScore :=
  let totalBugs := bugs.length
  let bugsFixed := (bugs.filter (fun b => b.fixed)).length
  let baseScore0 := if totalBugs > 0 then (120 * bugsFixed + totalBugs) / (2 * totalBugs) else 0
  let baseScore1 := baseScore0 + (if testsPassed then 20 else 0)
  let baseScore2 := baseScore1 +
    (if attempts ≤ 2 then 10 else if attempts ≤ 3 then 5 else 0)
  let speedBonus : Nat := if timeSeconds < SPEED_BONUS_THRESHOLD_SEC then 10 else 0
  let commitPenalty : Nat :=
    if totalCommits > MAX_COMMITS_PENALTY_THRESHOLD
      then totalCommits - MAX_COMMITS_PENALTY_THRESHOLD else 0
  let finalScore : Int :=
    max 0 (min 100 ((baseScore2 : Int) + (speedBonus : Int) - (commitPenalty : Int)))
  { totalBugs := totalBugs, bugsFixed := bugsFixed, testsPassed := testsPassed,
    attempts := attempts, totalCommits := totalCommits, timeSeconds := timeSeconds,
    speedBonus := speedBonus, commitPenalty := commitPenalty, finalScore := finalScore }

/-- The spec's `base` accumulator, transcribed from the spec's scoring formula
(`round` is Mathlib's round-half-up on rationals, matching JS `Math.round` for
non-negative arguments). -/
def specBase (totalBugs bugsFixed : Nat) (testsPassed : Bool) (attemptsUsed : Nat) : Int :=
  (if totalBugs > 0 then round ((bugsFixed : ℚ) / (totalBugs : ℚ) * 60) else 0)
  + (if testsPassed then 20 else 0)
  + (if attemptsUsed ≤ 2 then 10 else if attemptsUsed ≤ 3 then 5 else 0)

/-- The spec's `finalScore` formula: `clamp(base + speedBonus - commitPenalty, 0, 100)`
with `speedBonus = 10` iff under 300 seconds and `commitPenalty = max(0, totalCommits - 20)`. -/
def specFinalScore (totalBugs bugsFixed : Nat) (testsPassed : Bool)
    (attemptsUsed totalCommits elapsedSeconds : Nat) : Int :=
  let speedBonus : Int := if elapsedSeconds < 300 then 10 else 0
  let commitPenalty : Int := max 0 ((totalCommits : Int) - 20)
  max 0 (min 100 (specBase totalBugs bugsFixed testsPassed attemptsUsed + speedBonus - commitPenalty))

/-- The Nat-division rendering of `Math.round(bugsFixed/totalBugs * 60)` used in
the embedding of `calculateScore` agrees with rational rounding. -/
lemma natRoundDiv_eq_round (f t : Nat) (ht : 0 < t) :
    (((120 * f + t) / (2 * t) : Nat) : Int) = round ((f : ℚ) / (t : ℚ) * 60) := by
  have ht' : (t : ℚ) ≠ 0 := Nat.cast_ne_zero.mpr ht.ne'
  have h1 : (f : ℚ) / (t : ℚ) * 60 + 1 / 2 = ((120 * f + t : Nat) : ℚ) / ((2 * t : Nat) : ℚ) := by
    push_cast
    field_simp
    ring
  have h2 : (0 : ℚ) ≤ ((120 * f + t : Nat) : ℚ) / ((2 * t : Nat) : ℚ) := by
    apply div_nonneg <;> exact Nat.cast_nonneg _
  rw [round_eq, h1, ← Int.natCast_floor_eq_floor h2, Nat.floor_div_eq_div]

/-- Sample bug used to build concrete bug lists. -/
def mkBug (i : Nat) (fx : Bool) : HealingBug :=
  { id := i, category := "LOGIC", filePath := "a.ts", line := i, message := "m",
    severity := "low", fixed := fx, fixedAtAttempt := none }

/-- Ten bugs, all fixed. -/
def tenFixedBugs : List HealingBug := (List.range 10).map (fun i => mkBug i true)

/-- Ten bugs, five fixed. -/
def fiveOfTenBugs : List HealingBug :=
  (List.range 5).map (fun i => mkBug i true) ++ (List.range 5).map (fun i => mkBug (5 + i) false)

/-- Claim C1: for every bug list, testsPassed flag, attempt count, commit count
and elapsed time, `calculateScore` returns exactly the spec formula
(`base = round(bugsFixed/totalBugs*60) + 20·testsPassed + attempt bonus`,
`speedBonus = 10` iff under 300 s, `commitPenalty = max(0, totalCommits-20)`,
`finalScore = clamp(base + speedBonus - commitPenalty, 0, 100)`); in particular
the two concrete inputs from the spec score 100 and 25. -/
theorem calculateScore_matches_spec_formula :
    (∀ (bugs : List HealingBug) (tp : Bool) (a c s : Nat),
      (calculateScore bugs tp a c s).finalScore =
        specFinalScore bugs.length ((bugs.filter (fun b => b.fixed)).length) tp a c s)
    ∧ (calculateScore tenFixedBugs true 2 3 120).finalScore = 100
    ∧ (calculateScore fiveOfTenBugs false 5 25 400).finalScore = 25 := by
  refine ⟨?_, by decide, by decide⟩
  intro bugs tp a c s
  rcases Nat.eq_zero_or_pos bugs.length with h0 | hpos
  · simp only [calculateScore, specFinalScore, specBase, h0, SPEED_BONUS_THRESHOLD_SEC,
      MAX_COMMITS_PENALTY_THRESHOLD]
    split_ifs <;> push_cast <;> omega
  · have hr := natRoundDiv_eq_round ((bugs.filter (fun b => b.fixed)).length) bugs.length hpos
    simp only [calculateScore, specFinalScore, specBase, SPEED_BONUS_THRESHOLD_SEC,
      MAX_COMMITS_PENALTY_THRESHOLD, hpos, if_pos, ← hr]
    split_ifs <;> push_cast <;> omega

/-- Claim C4: for every input, the `HealingScore` returned by `calculateScore`
satisfies `bugsFixed ≤ totalBugs` and `0 ≤ finalScore ≤ 100`. -/
theorem calculateScore_invariants (bugs : List HealingBug) (tp : Bool) (a c s : Nat) :
    (calculateScore bugs tp a c s).bugsFixed ≤ (calculateScore bugs tp a c s).totalBugs
    ∧ 0 ≤ (calculateScore bugs tp a c s).finalScore
    ∧ (calculateScore bugs tp a c s).finalScore ≤ 100 := by
  refine ⟨List.length_filter_le _ _, le_max_left 0 _, ?_⟩
  simp only [calculateScore]
  exact max_le (by norm_num) (min_le_left _ _)

/-! ## Bug scanner (`scanForBugs`, bug-scanner.ts lines 144-277)

The filesystem walk (`scanFileTree`) and the Gemini endpoint are external
collaborators; they are abstracted into a `ScanEnv`: the list of analyzable
files found in the workspace, the resolved API key, and a per-batch outcome of
`model.invoke` + JSON-array extraction + `JSON.parse`. -/

/-- A file returned by `scanFileTree`. -/
structure ScannedFile where
  path : String
  content : String
  language : String
  size : Nat
deriving DecidableEq

/-- One structured test failure (`testErrors` entries passed to `scanForBugs`). -/
structure TestError where
  filePath : String
  line : Nat
  message : String
  type : String
deriving DecidableEq

/-- A raw bug object parsed from the model's JSON array; `category`, `line`
and `severity` may be absent or falsy (the code applies `|| default`). -/
structure RawBug where
  category : Option String
  filePath : String
  line : Option Nat
  message : String
  severity : Option String
deriving DecidableEq

/-- Outcome of one batch of the AI scan: `model.invoke` rejecting, a response
with no bracket-delimited JSON array, a response whose array fails to parse,
or a parsed array of raw bugs. -/
inductive BatchOutcome where
  | throwErr (msg : String)
  | noJson
  | parseFail
  | bugs (l : List RawBug)
deriving DecidableEq

/-- Environment of one `scanForBugs` call: resolved `GEMINI_API_KEY` /
`GOOGLE_API_KEY`, the analyzable files discovered by `scanFileTree`, and the
outcome of each numbered batch (batches of 10 file contexts). -/
structure ScanEnv where
  apiKey : Option String
  files : List ScannedFile
  batch : Nat → BatchOutcome

/-- JS `x || default` for an optional string (absent or empty is falsy). -/
def orDefaultStr (o : Option String) (d : String) : String :=
  match o with
  | none => d
  | some s => if s = "" then d else s

/-- JS `bug.line || 1` (absent or 0 is falsy). -/
def lineOr1 (o : Option Nat) : Nat :=
  match o with
  | none => 1
  | some n => if n = 0 then 1 else n

/-- Conversion of a parsed raw bug into a `HealingBug` (uuid abstracted to 0):
`category: bug.category || "RUNTIME"`, `line: bug.line || 1`,
`severity: bug.severity || "medium"`, `fixed: false`. -/
def rawToHealingBug (r : RawBug) : HealingBug :=
  { id := 0, category := orDefaultStr r.category "RUNTIME", filePath := r.filePath,
    line := lineOr1 r.line, message := r.message,
    severity := orDefaultStr r.severity "medium", fixed := false, fixedAtAttempt := none }

/-- Number of batches: `Math.ceil(fileContexts.length / batchSize)` with
`batchSize = 10`. -/
def numBatches (env : ScanEnv) : Nat := (env.files.length + 9) / 10

/-- The batch loop inside the `try` block: batches are processed in order; a
rejected `model.invoke` aborts the whole `try` (propagating to the `catch`),
while a missing JSON array or a parse failure merely skips the batch. -/
def scanBatchesAux (env : ScanEnv) : Nat → Nat → Except String (List HealingBug)
  | _, 0 => Except.ok []
  | idx, remaining + 1 =>
    match env.batch idx with
    | BatchOutcome.throwErr m => Except.error m
    | BatchOutcome.noJson => scanBatchesAux env (idx + 1) remaining
    | BatchOutcome.parseFail => scanBatchesAux env (idx + 1) remaining
    | BatchOutcome.bugs l =>
      match scanBatchesAux env (idx + 1) remaining with
      | Except.ok rest => Except.ok (l.map rawToHealingBug ++ rest)
      | Except.error m => Except.error m

/-- All bugs accumulated by the AI batch loop (`allBugs` before test-error
reconciliation); empty when the loop throws. -/
def aiScanBugs (env : ScanEnv) : List HealingBug :=
  match scanBatchesAux env 0 (numBatches env) with
  | Except.ok l => l
  | Except.error _ => []

/-- The bug synthesized from a test error (same shape in the reconciliation
loop and in the catch fallback): severity `high`, message
`"<type> error in <filePath> line <line>: <message>"`. -/
def synthBug (e : TestError) : HealingBug :=
  { id := 0, category := e.type, filePath := e.filePath, line := e.line,
    message := e.type ++ " error in " ++ e.filePath ++ " line " ++ toString e.line
      ++ ": " ++ e.message,
    severity := "high", fixed := false, fixedAtAttempt := none }

/-- Reconciliation loop (bug-scanner.ts lines 239-256): each test error whose
`(filePath, line)` is not already present in the accumulated list gets a
synthesized bug appended. -/
def reconcileTestErrors (acc : List HealingBug) : List TestError → List HealingBug
  | [] => acc
  | e :: rest =>
    if acc.any (fun b => b.filePath = e.filePath ∧ b.line = e.line) then
      reconcileTestErrors acc rest
    else
      reconcileTestErrors (acc ++ [synthBug e]) rest

/-- The catch-branch fallback: bugs derived purely from the test errors. -/
def testErrorFallback (testErrors : List TestError) : List HealingBug :=
  testErrors.map synthBug

/-- `scanForBugs` (bug-scanner.ts lines 144-277).  With no analyzable files it
returns `[]` at once (before any reconciliation).  `getGeminiModel` is called
BEFORE the `try` block, so a missing API key raises (`Except.error`).  Inside
the `try`, a rejected batch jumps to the `catch`, which returns bugs derived
purely from the test errors. -/
def scanForBugs (env : ScanEnv) (testErrors : List TestError) :
    Except String (List HealingBug) :=
  if env.files.length = 0 then Except.ok []
  else
    match env.apiKey with
    | none => Except.error "GEMINI_API_KEY or GOOGLE_API_KEY is required"
    | some _ =>
      match scanBatchesAux env 0 (numBatches env) with
      | Except.ok aiBugs => Except.ok (reconcileTestErrors aiBugs testErrors)
      | Except.error _ => Except.ok (testErrorFallback testErrors)

/-- A one-file environment with no API key configured. -/
def scanEnvNoKey : ScanEnv :=
  { apiKey := none,
    files := [{ path := "a.ts", content := "x", language := "ts", size := 1 }],
    batch := fun _ => BatchOutcome.noJson }

/-- Claim C3 counterexample: with one analyzable file and the model
configuration unavailable (no `GEMINI_API_KEY`/`GOOGLE_API_KEY`), `scanForBugs`
raises to its caller instead of returning normally — `getGeminiModel` is
invoked outside the `try`/`catch` (bug-scanner.ts line 183 vs 185). -/
theorem scanForBugs_raises_without_api_key :
    scanForBugs scanEnvNoKey [] =
      Except.error "GEMINI_API_KEY or GOOGLE_API_KEY is required" := by
  rfl

/-- Claim C3 (amended): `scanForBugs` returns normally whenever the model
configuration is available or there are no analyzable files; if the first
batch invocation rejects, it degrades to the bugs derived purely from the
test failures. -/
theorem scanForBugs_total_unless_config_missing (env : ScanEnv) (te : List TestError)
    (h : env.apiKey.isSome ∨ env.files = []) :
    (∃ l, scanForBugs env te = Except.ok l)
    ∧ (∀ m, env.batch 0 = BatchOutcome.throwErr m → env.files ≠ [] →
        scanForBugs env te = Except.ok (testErrorFallback te)) := by
  constructor
  · rcases h with hk | hf
    · rcases Option.isSome_iff_exists.mp hk with ⟨k, hk'⟩
      unfold scanForBugs
      rcases Nat.eq_zero_or_pos env.files.length with h0 | hpos
      · exact ⟨[], by simp [h0]⟩
      · rw [if_neg (by omega), hk']
        cases hb : scanBatchesAux env 0 (numBatches env) with
        | ok l => exact ⟨reconcileTestErrors l te, rfl⟩
        | error m => exact ⟨testErrorFallback te, rfl⟩
    · exact ⟨[], by simp [scanForBugs, hf]⟩
  · intro m hm hne
    have hk : env.apiKey.isSome := by
      rcases h with hk | hf
      · exact hk
      · exact absurd hf hne
    rcases Option.isSome_iff_exists.mp hk with ⟨k, hk'⟩
    have hlen : 0 < env.files.length := List.length_pos.mpr hne
    have hnb : 0 < numBatches env := by
      unfold numBatches; omega
    have hthrow : scanBatchesAux env 0 (numBatches env) = Except.error m := by
      rcases Nat.exists_eq_succ_of_ne_zero hnb.ne' with ⟨r, hr⟩
      rw [hr]
      unfold scanBatchesAux
      rw [hm]
    unfold scanForBugs
    rw [if_neg (by omega), hk', hthrow]

/-- A witness environment for the amended C3: API key present, single file,
first batch rejects. -/
def scanEnvThrow : ScanEnv :=
  { apiKey := some "k",
    files := [{ path := "a.ts", content := "x", language := "ts", size := 1 }],
    batch := fun _ => BatchOutcome.throwErr "boom" }

/-- One concrete test error. -/
def testErr0 : TestError :=
  { filePath := "a.ts", line := 10, message := "broken", type := "RUNTIME" }

/-- Witness for the amended C3 at a concrete environment. -/
theorem scanForBugs_total_unless_config_missing_witness :
    (∃ l, scanForBugs scanEnvThrow [testErr0] = Except.ok l)
    ∧ scanForBugs scanEnvThrow [testErr0] = Except.ok (testErrorFallback [testErr0]) := by
  refine ⟨(scanForBugs_total_unless_config_missing scanEnvThrow [testErr0] (Or.inl rfl)).1, ?_⟩
  exact (scanForBugs_total_unless_config_missing scanEnvThrow [testErr0]
    (Or.inl rfl)).2 "boom" rfl (by decide)

/-- Reconciliation only appends: anything in the accumulator stays. -/
lemma reconcile_mono (te : List TestError) :
    ∀ acc b, b ∈ acc → b ∈ reconcileTestErrors acc te := by
  induction te with
  | nil => intro acc b hb; exact hb
  | cons e rest ih =>
    intro acc b hb
    unfold reconcileTestErrors
    by_cases hc : acc.any (fun x => x.filePath = e.filePath ∧ x.line = e.line)
    · simp only [hc, if_true]
      exact ih acc b hb
    · simp only [hc, if_false]
      exact ih (acc ++ [synthBug e]) b (List.mem_append_left _ hb)

/-- If every accumulator entry covering a test error's location has severity
`high`, then after reconciliation every listed test error's location is
covered by a severity-`high` bug. -/
lemma reconcile_represented (te : List TestError) :
    ∀ (acc : List HealingBug) (e : TestError), e ∈ te →
      (∀ b ∈ acc, b.filePath = e.filePath → b.line = e.line → b.severity = "high") →
      ∃ b ∈ reconcileTestErrors acc te,
        b.filePath = e.filePath ∧ b.line = e.line ∧ b.severity = "high" := by
  induction te with
  | nil => intro acc e he _; cases he
  | cons e' rest ih =>
    intro acc e he hacc
    unfold reconcileTestErrors
    by_cases hc : acc.any (fun x => x.filePath = e'.filePath ∧ x.line = e'.line)
    · simp only [hc, if_true]
      rcases List.mem_cons.mp he with rfl | hrest
      · rcases List.any_eq_true.mp hc with ⟨b, hb, hcov⟩
        have hcov' : b.filePath = e.filePath ∧ b.line = e.line := by
          simpa using hcov
        exact ⟨b, reconcile_mono rest acc b hb,
          hcov'.1, hcov'.2, hacc b hb hcov'.1 hcov'.2⟩
      · exact ih acc e hrest hacc
    · simp only [hc, if_false]
      have hacc' : ∀ b ∈ acc ++ [synthBug e'],
          b.filePath = e.filePath → b.line = e.line → b.severity = "high" := by
        intro b hb h1 h2
        rcases List.mem_append.mp hb with hb' | hb'
        · exact hacc b hb' h1 h2
        · rw [List.mem_singleton.mp hb']; rfl
      rcases List.mem_cons.mp he with rfl | hrest
      · refine ⟨synthBug e, reconcile_mono rest _ _ (List.mem_append_right _ (by simp)), ?_⟩
        exact ⟨rfl, rfl, rfl⟩
      · exact ih (acc ++ [synthBug e']) e hrest hacc'

/-- An environment with an API key but zero analyzable files. -/
def scanEnvNoFiles : ScanEnv :=
  { apiKey := some "k", files := [], batch := fun _ => BatchOutcome.noJson }

/-- Claim C7 counterexample: with zero analyzable files, `scanForBugs` returns
`[]` before the test-error reconciliation ever runs (bug-scanner.ts lines
162-164), so the concrete test failure `testErr0` — covered by no AI-reported
bug, since the AI scan produced none — is not represented in the output. -/
theorem scanForBugs_empty_files_drops_test_errors :
    scanForBugs scanEnvNoFiles [testErr0] = Except.ok []
    ∧ aiScanBugs scanEnvNoFiles = [] := by
  exact ⟨rfl, rfl⟩

/-- Claim C7 (amended): provided at least one analyzable file exists and the
call returns normally, every test error whose `(filePath, line)` is covered by
no AI-reported bug is represented in the returned list by a bug at that
location with severity `high` (with zero analyzable files the scanner returns
`[]` without synthesizing test-error bugs). -/
theorem testErrors_represented_in_scan (env : ScanEnv) (te : List TestError)
    (l : List HealingBug) (e : TestError)
    (hfiles : env.files ≠ [])
    (hok : scanForBugs env te = Except.ok l)
    (he : e ∈ te)
    (hnocover : ∀ b ∈ aiScanBugs env, ¬(b.filePath = e.filePath ∧ b.line = e.line)) :
    ∃ b ∈ l, b.filePath = e.filePath ∧ b.line = e.line ∧ b.severity = "high" := by
  have hlen : env.files.length ≠ 0 := fun h => hfiles (List.length_eq_zero.mp h)
  unfold scanForBugs at hok
  rw [if_neg hlen] at hok
  cases hkey : env.apiKey with
  | none => rw [hkey] at hok; cases hok
  | some k =>
    rw [hkey] at hok
    cases hb : scanBatchesAux env 0 (numBatches env) with
    | ok aiBugs =>
      rw [hb] at hok
      have hl : l = reconcileTestErrors aiBugs te := (Except.ok.injEq _ _).mp hok.symm
      have hai : aiScanBugs env = aiBugs := by unfold aiScanBugs; rw [hb]
      subst hl
      apply reconcile_represented te aiBugs e he
      intro b hbmem h1 h2
      exact absurd ⟨h1, h2⟩ (hnocover b (hai ▸ hbmem))
    | error m =>
      rw [hb] at hok
      have hl : l = testErrorFallback te := (Except.ok.injEq _ _).mp hok.symm
      subst hl
      exact ⟨synthBug e, List.mem_map_of_mem synthBug he, rfl, rfl, rfl⟩

/-- Witness for the amended C7 at a concrete environment (single file, first
batch rejects, one test error). -/
theorem testErrors_represented_in_scan_witness :
    ∃ b ∈ testErrorFallback [testErr0],
      b.filePath = testErr0.filePath ∧ b.line = testErr0.line ∧ b.severity = "high" := by
  have hai : aiScanBugs scanEnvThrow = [] := rfl
  exact testErrors_represented_in_scan scanEnvThrow [testErr0]
    (testErrorFallback [testErr0]) testErr0 (by decide) rfl (by simp)
    (fun b hb => by rw [hai] at hb; exact absurd hb (List.not_mem_nil b))

/-! ## Fix engineer (`fixBugsInFile`, fix-engineer.ts lines 77-199)

The workspace filesystem is an association list from relative paths to file
contents; the model call plus fenced-code-block extraction is abstracted as a
`FixResponse` oracle.  JS `String.prototype.trim` is `String.trim`. -/

/-- Outcome of the engineer's model call for one file: `model.invoke`
rejecting, a response with no fenced code block, or the body of the first
fenced code block. -/
inductive FixResponse where
  | throwErr (msg : String)
  | noCodeBlock
  | codeBlock (body : String)
deriving DecidableEq

/-- Environment of one `fixBugsInFile` call. -/
structure FixEnv where
  apiKey : Option String
  fs : List (String × String)
  respond : FixResponse

/-- Read a file from the workspace (`existsSync` + `readFileSync`). -/
def fsLookup (fs : List (String × String)) (p : String) : Option String :=
  (fs.find? (fun kv => kv.1 = p)).map (fun kv => kv.2)

/-- Overwrite a file in place (`writeFileSync`); only called on existing paths. -/
def fsWrite (fs : List (String × String)) (p c : String) : List (String × String) :=
  fs.map (fun kv => if kv.1 = p then (p, c) else kv)

/-- `fixBugsInFile` (fix-engineer.ts lines 77-199), returning the per-bug
results and the resulting workspace.  The missing-file check precedes the
model construction; `getGeminiModel` (line 130) is called before the `try`,
so a missing API key raises; inside the `try`, a rejected invocation, a
response with no code block, and a body identical to the original after
trimming each yield `applied=false` for every bug, and only a genuinely
different body is written back with `applied=true` for every bug. -/
def fixBugsInFile (env : FixEnv) (filePath : String) (bugs : List HealingBug) :
    Except String (List FixResult × List (String × String)) :=
  match fsLookup env.fs filePath with
  | none =>
    Except.ok (bugs.map (fun bug =>
      { filePath := filePath, bugId := bug.id, description := "File not found",
        applied := false, error := some "File not found" }), env.fs)
  | some originalContent =>
    match env.apiKey with
    | none => Except.error "GEMINI_API_KEY or GOOGLE_API_KEY is required"
    | some _ =>
      match env.respond with
      | FixResponse.throwErr m =>
        Except.ok (bugs.map (fun bug =>
          { filePath := filePath, bugId := bug.id, description := "AI fix failed: " ++ m,
            applied := false, error := some m }), env.fs)
      | FixResponse.noCodeBlock =>
        Except.ok (bugs.map (fun bug =>
          { filePath := filePath, bugId := bug.id,
            description := "AI did not return a code block",
            applied := false, error := some "No code block in AI response" }), env.fs)
      | FixResponse.codeBlock body =>
        if body.trim = originalContent.trim then
          Except.ok (bugs.map (fun bug =>
            { filePath := filePath, bugId := bug.id, description := "No changes applied",
              applied := false, error := some "Fixed content identical to original" }), env.fs)
        else
          Except.ok (bugs.map (fun bug =>
            { filePath := filePath, bugId := bug.id,
              description := "Fixed " ++ bug.category ++ " error at line " ++ toString bug.line,
              applied := true, error := none }), fsWrite env.fs filePath body)

/-- Claim C9: when the model response's code block is identical to the
original file after trimming, every associated bug is reported
`applied=false` and the workspace is unchanged. -/
theorem fixBugsInFile_identical_content_noop (env : FixEnv) (filePath : String)
    (bugs : List HealingBug) (orig body : String)
    (hfile : fsLookup env.fs filePath = some orig)
    (hkey : env.apiKey.isSome)
    (hresp : env.respond = FixResponse.codeBlock body)
    (heq : body.trim = orig.trim) :
    ∃ results, fixBugsInFile env filePath bugs = Except.ok (results, env.fs)
      ∧ results.length = bugs.length
      ∧ ∀ r ∈ results, r.applied = false := by
  rcases Option.isSome_iff_exists.mp hkey with ⟨k, hk⟩
  refine ⟨bugs.map (fun bug =>
    { filePath := filePath, bugId := bug.id, description := "No changes applied",
      applied := false, error := some "Fixed content identical to original" }), ?_, ?_, ?_⟩
  · simp only [fixBugsInFile, hfile, hk, hresp]
    rw [if_pos heq]
  · exact List.length_map _ _
  · intro r hr
    rcases List.mem_map.mp hr with ⟨bug, _, rfl⟩
    rfl

/-- A concrete fix environment: one file whose responded code block trims to
the original content. -/
def fixEnvIdentical : FixEnv :=
  { apiKey := some "k", fs := [("a.ts", "let x = 1")],
    respond := FixResponse.codeBlock "let x = 1" }

/-- One concrete bug located in `a.ts`. -/
def bugA : HealingBug :=
  { id := 1, category := "SYNTAX", filePath := "a.ts", line := 10,
    message := "m", severity := "high", fixed := false, fixedAtAttempt := none }

/-- Witness for C9 at a concrete environment. -/
theorem fixBugsInFile_identical_content_noop_witness :
    ∃ results, fixBugsInFile fixEnvIdentical "a.ts" [bugA] =
        Except.ok (results, fixEnvIdentical.fs)
      ∧ results.length = ([bugA] : List HealingBug).length
      ∧ ∀ r ∈ results, r.applied = false := by
  exact fixBugsInFile_identical_content_noop fixEnvIdentical "a.ts" [bugA]
    "let x = 1" "let x = 1" rfl rfl rfl rfl

/-- Claim C10: in the missing-file, model-failure, no-code-block,
identical-content and successful cases alike, `fixBugsInFile` returns
normally with exactly one result per input bug, carrying that bug's id, all
results sharing one `applied` value; the workspace is rewritten (with the
responded body) exactly when that value is `true`. -/
theorem fixBugsInFile_all_or_nothing (env : FixEnv) (filePath : String)
    (bugs : List HealingBug)
    (h : env.apiKey.isSome ∨ fsLookup env.fs filePath = none) :
    ∃ results fs', fixBugsInFile env filePath bugs = Except.ok (results, fs')
      ∧ results.map (fun r => r.bugId) = bugs.map (fun b => b.id)
      ∧ ((∀ r ∈ results, r.applied = false) ∧ fs' = env.fs
          ∨ (∀ r ∈ results, r.applied = true)
            ∧ ∃ body, env.respond = FixResponse.codeBlock body
              ∧ fs' = fsWrite env.fs filePath body) := by
  cases hfile : fsLookup env.fs filePath with
  | none =>
    refine ⟨bugs.map (fun bug =>
      { filePath := filePath, bugId := bug.id, description := "File not found",
        applied := false, error := some "File not found" }), env.fs, ?_, ?_, Or.inl ⟨?_, rfl⟩⟩
    · simp only [fixBugsInFile, hfile]
    · rw [List.map_map]; rfl
    · intro r hr
      rcases List.mem_map.mp hr with ⟨bug, _, rfl⟩
      rfl
  | some orig =>
    have hkey : env.apiKey.isSome := by
      rcases h with hk | hnone
      · exact hk
      · rw [hfile] at hnone; cases hnone
    rcases Option.isSome_iff_exists.mp hkey with ⟨k, hk⟩
    cases hresp : env.respond with
    | throwErr m =>
      refine ⟨bugs.map (fun bug =>
        { filePath := filePath, bugId := bug.id, description := "AI fix failed: " ++ m,
          applied := false, error := some m }), env.fs, ?_, ?_, Or.inl ⟨?_, rfl⟩⟩
      · simp only [fixBugsInFile, hfile, hk, hresp]
      · rw [List.map_map]; rfl
      · intro r hr
        rcases List.mem_map.mp hr with ⟨bug, _, rfl⟩
        rfl
    | noCodeBlock =>
      refine ⟨bugs.map (fun bug =>
        { filePath := filePath, bugId := bug.id,
          description := "AI did not return a code block",
          applied := false, error := some "No code block in AI response" }), env.fs,
        ?_, ?_, Or.inl ⟨?_, rfl⟩⟩
      · simp only [fixBugsInFile, hfile, hk, hresp]
      · rw [List.map_map]; rfl
      · intro r hr
        rcases List.mem_map.mp hr with ⟨bug, _, rfl⟩
        rfl
    | codeBlock body =>
      by_cases heq : body.trim = orig.trim
      · refine ⟨bugs.map (fun bug =>
          { filePath := filePath, bugId := bug.id, description := "No changes applied",
            applied := false, error := some "Fixed content identical to original" }), env.fs,
          ?_, ?_, Or.inl ⟨?_, rfl⟩⟩
        · simp only [fixBugsInFile, hfile, hk, hresp]
          rw [if_pos heq]
        · rw [List.map_map]; rfl
        · intro r hr
          rcases List.mem_map.mp hr with ⟨bug, _, rfl⟩
          rfl
      · refine ⟨bugs.map (fun bug =>
          { filePath := filePath, bugId := bug.id,
            description := "Fixed " ++ bug.category ++ " error at line " ++ toString bug.line,
            applied := true, error := none }), fsWrite env.fs filePath body,
          ?_, ?_, Or.inr ⟨?_, ⟨body, rfl, rfl⟩⟩⟩
        · simp only [fixBugsInFile, hfile, hk, hresp]
          rw [if_neg heq]
        · rw [List.map_map]; rfl
        · intro r hr
          rcases List.mem_map.mp hr with ⟨bug, _, rfl⟩
          rfl

/-- Witness for C10 at a concrete environment (missing-file case). -/
theorem fixBugsInFile_all_or_nothing_witness :
    ∃ results fs',
      fixBugsInFile { apiKey := none, fs := [], respond := FixResponse.noCodeBlock }
        "a.ts" [bugA] = Except.ok (results, fs')
      ∧ results.map (fun r => r.bugId) = ([bugA] : List HealingBug).map (fun b => b.id)
      ∧ ((∀ r ∈ results, r.applied = false)
            ∧ fs' = ({ apiKey := none, fs := [], respond := FixResponse.noCodeBlock } : FixEnv).fs
          ∨ (∀ r ∈ results, r.applied = true)
            ∧ ∃ body, ({ apiKey := none, fs := [], respond := FixResponse.noCodeBlock } : FixEnv).respond
                = FixResponse.codeBlock body
              ∧ fs' = fsWrite [] "a.ts" body) := by
  exact fixBugsInFile_all_or_nothing _ "a.ts" [bugA] (Or.inr rfl)

/-! ## Repository manager (`commitChanges`, repo-manager.ts lines 124-172)

Git is a command-execution boundary; its state is abstracted to the commit
list of the current branch, whether `git add -A` stages a non-empty diff
(`git diff --cached --quiet` exits non-zero), the sha the next commit would
get, and the configured identity. -/

/-- One git commit. -/
structure GitCommit where
  sha : String
  message : String
deriving DecidableEq

/-- Abstract git workspace state. -/
structure GitState where
  commits : List GitCommit
  stagedChanges : Bool
  nextSha : String
  userEmail : String
  userName : String
deriving DecidableEq

/-- `commitChanges` (repo-manager.ts lines 124-172): configures the bot
identity, stages everything, returns `null` without committing when
`git diff --cached --quiet` reports nothing staged, and otherwise commits
with the `[AI-AGENT]`-prefixed message and returns the new HEAD sha. -/
def commitChanges (st : GitState) (message : String) : Option String × GitState :=
  let fullMessage := "[AI-AGENT] " ++ message
  let st1 := { st with userEmail := "ai-agent@protocol-zero.dev",
                       userName := "Protocol Zero AI Agent" }
  if st1.stagedChanges = false then
    (none, st1)
  else
    (some st1.nextSha,
      { st1 with commits := { sha := st1.nextSha, message := fullMessage } :: st1.commits,
                 stagedChanges := false })

/-- Claim C8: `commitChanges` on a working tree with no changes to stage
returns `null` and creates no commit; it returns a sha exactly when changes
were staged, and then exactly one commit is created. -/
theorem commitChanges_null_iff_no_changes (st : GitState) (msg : String) :
    (st.stagedChanges = false →
      (commitChanges st msg).1 = none
        ∧ (commitChanges st msg).2.commits = st.commits)
    ∧ (∀ sha, (commitChanges st msg).1 = some sha →
        st.stagedChanges = true
          ∧ (commitChanges st msg).2.commits =
              { sha := st.nextSha, message := "[AI-AGENT] " ++ msg } :: st.commits) := by
  constructor
  · intro h
    simp [commitChanges, h]
  · intro sha hsha
    cases hst : st.stagedChanges with
    | false =>
      exfalso
      simp [commitChanges, hst] at hsha
    | true =>
      refine ⟨rfl, ?_⟩
      simp [commitChanges, hst]

/-- A git state with nothing to stage. -/
def cleanGitState : GitState :=
  { commits := [{ sha := "abc", message := "init" }], stagedChanges := false,
    nextSha := "def", userEmail := "", userName := "" }

/-- Witness for C8 at a concrete clean state. -/
theorem commitChanges_null_iff_no_changes_witness :
    (commitChanges cleanGitState "m").1 = none
    ∧ (commitChanges cleanGitState "m").2.commits = cleanGitState.commits := by
  exact (commitChanges_null_iff_no_changes cleanGitState "m").1 rfl

/-! ## Orchestrator attempt loop (`runHealingLoop`, bug-scanner.ts lines 419-678)

The collaborators (test runner, AI scanner, fix engineer, git commit) are
oracles indexed by attempt number; the loop itself is the fuel-bounded
recursion `for attempt = 1..MAX_ATTEMPTS`, followed by the final
verification.  The run also returns a trace of the externally visible
actions, the exact argument of every fix-engineer invocation, and every
intermediate value of the session bug list `allBugs`. -/

/-- Result of `runTests` (the test-execution collaborator). -/
structure TestResult where
  passed : Bool
  fullOutput : String
  errors : List TestError
deriving DecidableEq

/-- One sealed loop-iteration record (`HealingAttempt` in types; wall-clock
fields `durationMs`/`timestamp` are not modelled). -/
structure HealingAttempt where
  attempt : Nat
  status : String
  testOutput : String
  bugsFound : Nat
  bugsFixed : Nat
  commitSha : Option String
deriving DecidableEq

/-- Collaborator behaviours for one session: test results per test run
(runs 1..5 are the loop, run 6 the final verification), scanner output per
attempt, fix-engineer results per invocation, commit outcome per attempt,
and the commit count / elapsed seconds read at scoring time. -/
structure LoopEnv where
  test : Nat → TestResult
  scan : Nat → List HealingBug
  fix : Nat → List HealingBug → List FixResult
  commit : Nat → Option String
  commitCount : Nat
  elapsed : Nat

/-- Externally visible actions of the loop, in order. -/
inductive LoopEvent where
  | testRun (attempt : Nat) (passed : Bool)
  | scanRun (attempt : Nat)
  | fixRun (attempt : Nat)
  | committed (attempt : Nat) (sha : String)
  | pushed (attempt : Nat)
  | recorded (attempt : Nat) (status : String)
  | scored (attempt : Nat)
  | prAttempted
deriving DecidableEq

/-- Everything a run produces. -/
structure LoopResult where
  status : String
  allBugs : List HealingBug
  attempts : List HealingAttempt
  score : Option HealingScore
  trace : List LoopEvent
  fixCalls : List (Nat × List HealingBug)
  bugHistory : List (List HealingBug)
deriving DecidableEq

/-- The dedup-append loop over freshly scanned bugs (bug-scanner.ts lines
514-529): a scanned bug is appended only if no accumulated bug already has
its `(filePath, line)`; the accumulator grows as the loop runs, so
duplicates inside one scan are also dropped. -/
def dedupAppend (acc : List HealingBug) : List HealingBug → List HealingBug
  | [] => acc
  | b :: rest =>
    if acc.any (fun x => x.filePath = b.filePath ∧ x.line = b.line) then
      dedupAppend acc rest
    else
      dedupAppend (acc ++ [b]) rest

/-- `unfixedBugs.length > 0 ? unfixedBugs : bugs` (bug-scanner.ts lines
545-548): the fix engineer's argument, computed from THIS attempt's scanned
bugs. -/
def fixTargets (bugs : List HealingBug) : List HealingBug :=
  let unfixedBugs := bugs.filter (fun b => !b.fixed)
  if unfixedBugs.length > 0 then unfixedBugs else bugs

/-- `allBugs.find(b => b.id === result.bugId)` followed by the in-place
mutation `bug.fixed = true; bug.fixedAtAttempt = attempt`: the first bug
with the given id is updated. -/
def markBugFixed : List HealingBug → Nat → Nat → List HealingBug
  | [], _, _ => []
  | b :: rest, bugId, attempt =>
    if b.id = bugId then
      { b with fixed := true, fixedAtAttempt := some attempt } :: rest
    else
      b :: markBugFixed rest bugId attempt

/-- The per-result loop over fix results (bug-scanner.ts lines 553-568):
every `applied` result marks the session bug with its id as fixed. -/
def markApplied : List HealingBug → List FixResult → Nat → List HealingBug
  | bugs, [], _ => bugs
  | bugs, r :: rest, attempt =>
    markApplied (if r.applied = true then markBugFixed bugs r.bugId attempt else bugs)
      rest attempt

/-- The attempt loop from attempt number `a` with `fuel` iterations left,
then the final verification (bug-scanner.ts lines 419-678).  Each iteration:
run tests; on pass, seal a `passed` record, score, attempt the PR and stop;
on failure, scan, dedup-append new bugs, invoke the fix engineer over
`fixTargets` of the scanned bugs, mark applied results, commit (push only if
a commit was made), seal a `failed` record and recurse.  Out of fuel: one
final test run decides `completed` versus `failed` (PR attempted on failure
only when some bug was fixed). -/
def runFrom (env : LoopEnv) : Nat → Nat → List HealingBug → List HealingAttempt → LoopResult
  | 0, a, allBugs, attempts =>
    let t := env.test a
    let score := calculateScore allBugs t.passed MAX_ATTEMPTS env.commitCount env.elapsed
    if t.passed then
      { status := "completed", allBugs := allBugs, attempts := attempts,
        score := some score,
        trace := [LoopEvent.testRun a true, LoopEvent.scored a, LoopEvent.prAttempted],
        fixCalls := [], bugHistory := [] }
    else
      { status := "failed", allBugs := allBugs, attempts := attempts,
        score := some score,
        trace := LoopEvent.testRun a false :: LoopEvent.scored a ::
          (if 0 < score.bugsFixed then [LoopEvent.prAttempted] else []),
        fixCalls := [], bugHistory := [] }
  | fuel + 1, a, allBugs, attempts =>
    let t := env.test a
    if t.passed then
      let attemptRecord : HealingAttempt :=
        { attempt := a, status := "passed", testOutput := t.fullOutput.take 5000,
          bugsFound := 0, bugsFixed := 0, commitSha := none }
      let score := calculateScore allBugs true a env.commitCount env.elapsed
      { status := "completed", allBugs := allBugs,
        attempts := attempts ++ [attemptRecord], score := some score,
        trace := [LoopEvent.testRun a true, LoopEvent.recorded a "passed",
                  LoopEvent.scored a, LoopEvent.prAttempted],
        fixCalls := [], bugHistory := [] }
    else
      let bugs := env.scan a
      let allBugs1 := dedupAppend allBugs bugs
      let targets := fixTargets bugs
      let frs := env.fix a targets
      let allBugs2 := markApplied allBugs1 frs a
      let sha := env.commit a
      let attemptRecord : HealingAttempt :=
        { attempt := a, status := "failed", testOutput := t.fullOutput.take 5000,
          bugsFound := bugs.length,
          bugsFixed := (frs.filter (fun r => r.applied)).length,
          commitSha := sha }
      let rest := runFrom env fuel (a + 1) allBugs2 (attempts ++ [attemptRecord])
      { status := rest.status, allBugs := rest.allBugs, attempts := rest.attempts,
        score := rest.score,
        trace := LoopEvent.testRun a false :: LoopEvent.scanRun a :: LoopEvent.fixRun a ::
          ((match sha with
            | some s => [LoopEvent.committed a s, LoopEvent.pushed a]
            | none => []) ++ LoopEvent.recorded a "failed" :: rest.trace),
        fixCalls := (a, targets) :: rest.fixCalls,
        bugHistory := allBugs1 :: allBugs2 :: rest.bugHistory }

/-- The healing loop of one session: attempts 1..`MAX_ATTEMPTS` starting from
an empty session bug list. -/
def runHealingLoop (env : LoopEnv) : LoopResult := runFrom env MAX_ATTEMPTS 1 [] []

/-- Events permitted after a passing test run: only the sealing of that same
attempt as `passed`, scoring, and the PR attempt. -/
def allowedAfterPass (k : Nat) (e : LoopEvent) : Bool :=
  match e with
  | LoopEvent.recorded a s => a == k && s == "passed"
  | LoopEvent.scored _ => true
  | LoopEvent.prAttempted => true
  | _ => false

/-- Checks that every suffix following a passing test run contains only
events allowed after a pass. -/
def cleanAfterPass : List LoopEvent → Bool
  | [] => true
  | LoopEvent.testRun k true :: rest => rest.all (allowedAfterPass k)
  | _ :: rest => cleanAfterPass rest

/-- Unfolding `cleanAfterPass` to the suffix-based reading: after any passing
test-run event in the trace, only allowed events follow. -/
lemma cleanAfterPass_spec :
    ∀ (pre : List LoopEvent) (tr : List LoopEvent), cleanAfterPass tr = true →
      ∀ k suf, tr = pre ++ LoopEvent.testRun k true :: suf →
        suf.all (allowedAfterPass k) = true := by
  intro pre
  induction pre with
  | nil =>
    intro tr h k suf he
    subst he
    simpa [cleanAfterPass] using h
  | cons e pre ih =>
    intro tr h k suf he
    subst he
    match e with
    | LoopEvent.testRun k2 true =>
      exfalso
      have h' : (pre ++ LoopEvent.testRun k true :: suf).all (allowedAfterPass k2) = true := by
        simpa [cleanAfterPass] using h
      have hmem : LoopEvent.testRun k true ∈ pre ++ LoopEvent.testRun k true :: suf :=
        List.mem_append_right _ (List.mem_cons_self _ _)
      have := List.all_eq_true.mp h' _ hmem
      simp [allowedAfterPass] at this
    | LoopEvent.testRun k2 false =>
      exact ih _ (by simpa [cleanAfterPass] using h) k suf rfl
    | LoopEvent.scanRun a =>
      exact ih _ (by simpa [cleanAfterPass] using h) k suf rfl
    | LoopEvent.fixRun a =>
      exact ih _ (by simpa [cleanAfterPass] using h) k suf rfl
    | LoopEvent.committed a s =>
      exact ih _ (by simpa [cleanAfterPass] using h) k suf rfl
    | LoopEvent.pushed a =>
      exact ih _ (by simpa [cleanAfterPass] using h) k suf rfl
    | LoopEvent.recorded a s =>
      exact ih _ (by simpa [cleanAfterPass] using h) k suf rfl
    | LoopEvent.scored a =>
      exact ih _ (by simpa [cleanAfterPass] using h) k suf rfl
    | LoopEvent.prAttempted =>
      exact ih _ (by simpa [cleanAfterPass] using h) k suf rfl

/-- Every trace the loop produces is clean after a pass. -/
lemma runFrom_trace_clean (env : LoopEnv) :
    ∀ fuel a allBugs attempts,
      cleanAfterPass (runFrom env fuel a allBugs attempts).trace = true := by
  intro fuel
  induction fuel with
  | zero =>
    intro a allBugs attempts
    by_cases hp : (env.test a).passed
    · simp [runFrom, hp, cleanAfterPass, allowedAfterPass]
    · simp only [runFrom, hp, if_false, Bool.false_eq_true, ite_false, cleanAfterPass]
      split <;> rfl
  | succ fuel ih =>
    intro a allBugs attempts
    by_cases hp : (env.test a).passed
    · simp [runFrom, hp, cleanAfterPass, allowedAfterPass]
    · cases hc : env.commit a with
      | none => simp [runFrom, hp, hc, cleanAfterPass, ih]
      | some s => simp [runFrom, hp, hc, cleanAfterPass, ih]

/-- The loop appends at most one attempt record per unit of fuel, and the
final verification appends none. -/
lemma runFrom_attempts_length (env : LoopEnv) :
    ∀ fuel a allBugs attempts,
      (runFrom env fuel a allBugs attempts).attempts.length ≤ attempts.length + fuel := by
  intro fuel
  induction fuel with
  | zero =>
    intro a allBugs attempts
    by_cases hp : (env.test a).passed
    · simp [runFrom, hp]
    · simp [runFrom, hp]
  | succ fuel ih =>
    intro a allBugs attempts
    by_cases hp : (env.test a).passed
    · simp [runFrom, hp]
    · simp only [runFrom, hp]
      refine Nat.le_trans (ih _ _ _) ?_
      simp only [List.length_append, List.length_singleton]
      omega

/-- Claim C2: for every session (every collaborator behaviour), the attempts
list never exceeds `MAX_ATTEMPTS = 5` entries, and once a testing step
reports passed, the only later events are sealing that same attempt as
`passed`, scoring, and the PR attempt — no further scan, fix, commit, push
or attempt record occurs. -/
theorem runHealingLoop_attempts_bounded_stops_at_first_pass (env : LoopEnv) :
    (runHealingLoop env).attempts.length ≤ MAX_ATTEMPTS
    ∧ ∀ pre k suf, (runHealingLoop env).trace = pre ++ LoopEvent.testRun k true :: suf →
        suf.all (allowedAfterPass k) = true := by
  constructor
  · have h := runFrom_attempts_length env MAX_ATTEMPTS 1 [] []
    simpa [runHealingLoop] using h
  · intro pre k suf he
    exact cleanAfterPass_spec pre _ (runFrom_trace_clean env MAX_ATTEMPTS 1 [] []) k suf he

/-- An environment whose tests fail on attempt 1 and pass on attempt 2, with
a trivial scanner, fix engineer and git. -/
def loopEnvPassAt2 : LoopEnv :=
  { test := fun n =>
      if n = 2 then { passed := true, fullOutput := "", errors := [] }
      else { passed := false, fullOutput := "", errors := [] },
    scan := fun _ => [], fix := fun _ _ => [], commit := fun _ => none,
    commitCount := 0, elapsed := 0 }

/-- Witness for C2 at a concrete environment: tests pass at attempt 2, and
the suffix after that passing test run consists only of allowed events. -/
theorem runHealingLoop_attempts_bounded_stops_at_first_pass_witness :
    (runHealingLoop loopEnvPassAt2).attempts.length ≤ MAX_ATTEMPTS
    ∧ ([LoopEvent.recorded 2 "passed", LoopEvent.scored 2,
        LoopEvent.prAttempted].all (allowedAfterPass 2) = true) := by
  refine ⟨(runHealingLoop_attempts_bounded_stops_at_first_pass loopEnvPassAt2).1, ?_⟩
  exact (runHealingLoop_attempts_bounded_stops_at_first_pass loopEnvPassAt2).2
    [LoopEvent.testRun 1 false, LoopEvent.scanRun 1, LoopEvent.fixRun 1,
     LoopEvent.recorded 1 "failed"] 2
    [LoopEvent.recorded 2 "passed", LoopEvent.scored 2, LoopEvent.prAttempted]
    (by decide)

/-- The dedup key of a bug. -/
def bugKey (b : HealingBug) : String × Nat := (b.filePath, b.line)

/-- `dedupAppend` preserves key-uniqueness of the accumulator. -/
lemma dedupAppend_nodup :
    ∀ (bs acc : List HealingBug), (acc.map bugKey).Nodup →
      ((dedupAppend acc bs).map bugKey).Nodup := by
  intro bs
  induction bs with
  | nil => intro acc h; exact h
  | cons b rest ih =>
    intro acc h
    unfold dedupAppend
    by_cases hc : acc.any (fun x => x.filePath = b.filePath ∧ x.line = b.line)
    · simp only [hc, if_true]
      exact ih acc h
    · simp only [hc, if_false]
      apply ih
      rw [List.map_append]
      simp only [List.map_cons, List.map_nil]
      rw [List.nodup_append]
      refine ⟨h, List.nodup_singleton _, ?_⟩
      intro key hkey hkey'
      rcases List.mem_map.mp hkey with ⟨x, hx, rfl⟩
      have hkb : bugKey x = bugKey b := List.mem_singleton.mp hkey'
      apply hc
      apply List.any_eq_true.mpr
      refine ⟨x, hx, ?_⟩
      have h1 : x.filePath = b.filePath := congrArg Prod.fst hkb
      have h2 : x.line = b.line := congrArg Prod.snd hkb
      simp [h1, h2]

/-- `markBugFixed` only flips flags: the keys are untouched. -/
lemma markBugFixed_map_key (i att : Nat) :
    ∀ bugs : List HealingBug, (markBugFixed bugs i att).map bugKey = bugs.map bugKey := by
  intro bugs
  induction bugs with
  | nil => rfl
  | cons b rest ih =>
    unfold markBugFixed
    by_cases hb : b.id = i
    · simp [hb, bugKey]
    · simp [hb, ih]

/-- `markBugFixed` only flips flags: the ids are untouched. -/
lemma markBugFixed_map_id (i att : Nat) :
    ∀ bugs : List HealingBug,
      (markBugFixed bugs i att).map (fun b => b.id) = bugs.map (fun b => b.id) := by
  intro bugs
  induction bugs with
  | nil => rfl
  | cons b rest ih =>
    unfold markBugFixed
    by_cases hb : b.id = i
    · simp [hb]
    · simp [hb, ih]

/-- `markApplied` leaves the key list unchanged. -/
lemma markApplied_map_key :
    ∀ (rs : List FixResult) (bugs : List HealingBug) (att : Nat),
      (markApplied bugs rs att).map bugKey = bugs.map bugKey := by
  intro rs
  induction rs with
  | nil => intro bugs att; rfl
  | cons r rest ih =>
    intro bugs att
    unfold markApplied
    by_cases hr : r.applied = true
    · simp only [hr, if_true]
      rw [ih, markBugFixed_map_key]
    · simp only [hr, if_false]
      exact ih bugs att

/-- Key-uniqueness of `allBugs` is an invariant of the loop, for the final
list and every intermediate one. -/
lemma runFrom_bugs_nodup (env : LoopEnv) :
    ∀ fuel a allBugs attempts, (allBugs.map bugKey).Nodup →
      (((runFrom env fuel a allBugs attempts).allBugs.map bugKey).Nodup
        ∧ ∀ l ∈ (runFrom env fuel a allBugs attempts).bugHistory, (l.map bugKey).Nodup) := by
  intro fuel
  induction fuel with
  | zero =>
    intro a allBugs attempts h
    by_cases hp : (env.test a).passed
    · refine ⟨by simpa [runFrom, hp] using h, ?_⟩
      intro l hl
      simp [runFrom, hp] at hl
    · refine ⟨by simpa [runFrom, hp] using h, ?_⟩
      intro l hl
      simp [runFrom, hp] at hl
  | succ fuel ih =>
    intro a allBugs attempts h
    by_cases hp : (env.test a).passed
    · refine ⟨by simpa [runFrom, hp] using h, ?_⟩
      intro l hl
      simp [runFrom, hp] at hl
    · have h1 : ((dedupAppend allBugs (env.scan a)).map bugKey).Nodup :=
        dedupAppend_nodup (env.scan a) allBugs h
      have h2 : ((markApplied (dedupAppend allBugs (env.scan a))
          (env.fix a (fixTargets (env.scan a))) a).map bugKey).Nodup := by
        rw [markApplied_map_key]
        exact h1
      constructor
      · simp only [runFrom, hp]
        exact (ih _ _ _ h2).1
      · simp only [runFrom, hp]
        intro l hl
        rcases List.mem_cons.mp hl with rfl | hl'
        · exact h1
        · rcases List.mem_cons.mp hl' with rfl | hl''
          · exact h2
          · exact (ih _ _ _ h2).2 l hl''

/-- Claim C6: within one session, the orchestrator's accumulated bug list
never contains two entries sharing a `(filePath, line)` pair — both the final
list and every intermediate value of `allBugs` have pairwise distinct keys,
for every collaborator behaviour. -/
theorem runHealingLoop_bugs_deduplicated (env : LoopEnv) :
    (((runHealingLoop env).allBugs.map bugKey).Nodup)
    ∧ ∀ l ∈ (runHealingLoop env).bugHistory, (l.map bugKey).Nodup := by
  exact runFrom_bugs_nodup env MAX_ATTEMPTS 1 [] [] (by simp)

/-- A second bug at the same `(filePath, line)` as `bugA` but a fresh id, as
a rediscovering scan would produce. -/
def bugA2 : HealingBug := { bugA with id := 2 }

/-- An environment whose scanner reports the same location twice on every
attempt, with tests always failing. -/
def loopEnvDupScan : LoopEnv :=
  { test := fun _ => { passed := false, fullOutput := "", errors := [] },
    scan := fun _ => [bugA, bugA2],
    fix := fun _ _ => [], commit := fun _ => none,
    commitCount := 0, elapsed := 0 }

/-- Witness for C6 at a concrete environment: scanning `(a.ts, 10)` twice per
attempt still yields a singleton session list at every point. -/
theorem runHealingLoop_bugs_deduplicated_witness :
    ((([bugA] : List HealingBug).map bugKey).Nodup) := by
  have h := (runHealingLoop_bugs_deduplicated loopEnvDupScan).2 [bugA] (by decide)
  exact h

/-- A fix-engineer oracle that applies every bug it is given. -/
def applyAll (bugs : List HealingBug) : List FixResult :=
  bugs.map (fun b =>
    { filePath := b.filePath, bugId := b.id, description := "", applied := true,
      error := none })

/-- An environment whose tests always fail, whose scanner finds `bugA` at
attempt 1, rediscovers its location as `bugA2` (fresh id) at attempt 2 and
finds nothing afterwards, and whose fix engineer applies everything it is
given. -/
def loopEnvRescan : LoopEnv :=
  { test := fun _ => { passed := false, fullOutput := "", errors := [] },
    scan := fun n => if n = 1 then [bugA] else if n = 2 then [bugA2] else [],
    fix := fun _ ts => applyAll ts,
    commit := fun _ => none, commitCount := 0, elapsed := 0 }

/-- Claim C5 counterexample.  In `loopEnvRescan` every attempt fails, yet:
at attempts 3-5 the fix engineer is invoked over `[]` although the session's
current bug set is the non-empty `[bugA]` — the code passes this attempt's
scanned bugs, not the session's pending bugs, and its fallback is the scanned
list, not "the full current bug set of the session"; and at attempt 2 the fix
result for the rediscovered `bugA2` (fresh uuid, same location) reports
`applied=true`, yet no session bug is marked with `fixedAtAttempt = 2` — the
session list keeps only id 1, fixed at attempt 1, because
`allBugs.find(b => b.id === result.bugId)` cannot match a duplicate that was
never appended. -/
theorem healingLoop_fix_invocation_counterexample :
    (runHealingLoop loopEnvRescan).fixCalls =
      [(1, [bugA]), (2, [bugA2]), (3, []), (4, []), (5, [])]
    ∧ (runHealingLoop loopEnvRescan).allBugs =
        [{ bugA with fixed := true, fixedAtAttempt := some 1 }]
    ∧ loopEnvRescan.fix 2 [bugA2] =
        [{ filePath := "a.ts", bugId := 2, description := "", applied := true,
           error := none }]
    ∧ bugA2.id = 2 := by
  refine ⟨by decide, by decide, by decide, by decide⟩

/-- The engineer's argument at every attempt is exactly
`fixTargets` of that attempt's scan. -/
lemma runFrom_fixCalls (env : LoopEnv) :
    ∀ fuel a allBugs attempts,
      ∀ p ∈ (runFrom env fuel a allBugs attempts).fixCalls,
        p.2 = fixTargets (env.scan p.1) := by
  intro fuel
  induction fuel with
  | zero =>
    intro a allBugs attempts p hp
    by_cases ht : (env.test a).passed <;> simp [runFrom, ht] at hp
  | succ fuel ih =>
    intro a allBugs attempts p hp
    by_cases ht : (env.test a).passed
    · simp [runFrom, ht] at hp
    · simp only [runFrom, ht] at hp
      rcases List.mem_cons.mp hp with rfl | hp'
      · rfl
      · exact ih _ _ _ p hp'

/-- `markBugFixed` marks the first bug carrying the given id. -/
lemma markBugFixed_sets (att : Nat) :
    ∀ (bugs : List HealingBug) (i : Nat), (∃ b ∈ bugs, b.id = i) →
      ∃ b ∈ markBugFixed bugs i att,
        b.id = i ∧ b.fixed = true ∧ b.fixedAtAttempt = some att := by
  intro bugs
  induction bugs with
  | nil => intro i h; rcases h with ⟨b, hb, _⟩; cases hb
  | cons b rest ih =>
    intro i h
    by_cases hb : b.id = i
    · refine ⟨{ b with fixed := true, fixedAtAttempt := some att }, ?_, hb, rfl, rfl⟩
      unfold markBugFixed
      rw [if_pos hb]
      exact List.mem_cons_self _ _
    · rcases h with ⟨x, hx, hxi⟩
      rcases List.mem_cons.mp hx with rfl | hx'
      · exact absurd hxi hb
      · rcases ih i ⟨x, hx', hxi⟩ with ⟨y, hy, hyp⟩
        refine ⟨y, ?_, hyp⟩
        unfold markBugFixed
        rw [if_neg hb]
        exact List.mem_cons_of_mem _ hy

/-- `markBugFixed` never unmarks a bug already fixed at this attempt. -/
lemma markBugFixed_preserves (att j : Nat) :
    ∀ (bugs : List HealingBug) (i : Nat),
      (∃ b ∈ bugs, b.id = j ∧ b.fixed = true ∧ b.fixedAtAttempt = some att) →
      ∃ b ∈ markBugFixed bugs i att,
        b.id = j ∧ b.fixed = true ∧ b.fixedAtAttempt = some att := by
  intro bugs
  induction bugs with
  | nil => intro i h; rcases h with ⟨b, hb, _⟩; cases hb
  | cons b rest ih =>
    intro i h
    rcases h with ⟨x, hx, hx1, hx2, hx3⟩
    by_cases hb : b.id = i
    · rcases List.mem_cons.mp hx with rfl | hx'
      · refine ⟨{ x with fixed := true, fixedAtAttempt := some att }, ?_, hx1, rfl, rfl⟩
        unfold markBugFixed
        rw [if_pos hb]
        exact List.mem_cons_self _ _
      · refine ⟨x, ?_, hx1, hx2, hx3⟩
        unfold markBugFixed
        rw [if_pos hb]
        exact List.mem_cons_of_mem _ hx'
    · rcases List.mem_cons.mp hx with rfl | hx'
      · refine ⟨x, ?_, hx1, hx2, hx3⟩
        unfold markBugFixed
        rw [if_neg hb]
        exact List.mem_cons_self _ _
      · rcases ih i ⟨x, hx', hx1, hx2, hx3⟩ with ⟨y, hy, hyp⟩
        refine ⟨y, ?_, hyp⟩
        unfold markBugFixed
        rw [if_neg hb]
        exact List.mem_cons_of_mem _ hy

/-- `markApplied` never unmarks a bug already fixed at this attempt. -/
lemma markApplied_preserves (att j : Nat) :
    ∀ (rs : List FixResult) (bugs : List HealingBug),
      (∃ b ∈ bugs, b.id = j ∧ b.fixed = true ∧ b.fixedAtAttempt = some att) →
      ∃ b ∈ markApplied bugs rs att,
        b.id = j ∧ b.fixed = true ∧ b.fixedAtAttempt = some att := by
  intro rs
  induction rs with
  | nil => intro bugs h; exact h
  | cons r rest ih =>
    intro bugs h
    unfold markApplied
    by_cases hr : r.applied = true
    · simp only [hr, if_true]
      exact ih _ (markBugFixed_preserves att j bugs r.bugId h)
    · simp only [hr, if_false]
      exact ih _ h

/-- An id present in the list stays present through `markBugFixed`. -/
lemma markBugFixed_id_mem (att i' : Nat) (bugs : List HealingBug) (i : Nat)
    (h : ∃ b ∈ bugs, b.id = i) : ∃ b ∈ markBugFixed bugs i' att, b.id = i := by
  rcases h with ⟨b, hb, hbi⟩
  have hmem : i ∈ bugs.map (fun x => x.id) := List.mem_map.mpr ⟨b, hb, hbi⟩
  rw [← markBugFixed_map_id i' att bugs] at hmem
  rcases List.mem_map.mp hmem with ⟨y, hy, hyi⟩
  exact ⟨y, hy, hyi⟩

/-- Every applied fix result whose id is carried by some session bug leaves
that id marked fixed at the current attempt after the marking loop. -/
lemma markApplied_marks (att : Nat) :
    ∀ (rs : List FixResult) (bugs : List HealingBug) (r : FixResult),
      r ∈ rs → r.applied = true → (∃ b ∈ bugs, b.id = r.bugId) →
      ∃ b ∈ markApplied bugs rs att,
        b.id = r.bugId ∧ b.fixed = true ∧ b.fixedAtAttempt = some att := by
  intro rs
  induction rs with
  | nil => intro bugs r hr; cases hr
  | cons r0 rest ih =>
    intro bugs r hr hap hex
    unfold markApplied
    rcases List.mem_cons.mp hr with rfl | hr'
    · simp only [hap, if_true]
      exact markApplied_preserves att r.bugId rest _ (markBugFixed_sets att bugs r.bugId hex)
    · by_cases h0 : r0.applied = true
      · simp only [h0, if_true]
        exact ih _ r hr' hap (markBugFixed_id_mem att r0.bugId bugs r.bugId hex)
      · simp only [h0, if_false]
        exact ih _ r hr' hap hex

/-- Claim C5 (amended): in every failed attempt the Fix Engineer is invoked
over the bugs returned by that attempt's scan that are not marked fixed,
falling back to the full scanned list if all of them are (never over the
session's accumulated set); and an `applied=true` fix result marks the
session bug carrying its `bugId` — when one exists — as `fixed=true` with
`fixedAtAttempt` set to the current attempt (a rediscovered duplicate
carries a fresh uuid, so it marks nothing). -/
theorem fixEngineer_invocation_and_marking (env : LoopEnv) :
    (∀ p ∈ (runHealingLoop env).fixCalls, p.2 = fixTargets (env.scan p.1))
    ∧ ∀ (bugs : List HealingBug) (results : List FixResult) (attempt : Nat)
        (r : FixResult), r ∈ results → r.applied = true →
        (∃ b ∈ bugs, b.id = r.bugId) →
        ∃ b ∈ markApplied bugs results attempt,
          b.id = r.bugId ∧ b.fixed = true ∧ b.fixedAtAttempt = some attempt :=
  ⟨runFrom_fixCalls env MAX_ATTEMPTS 1 [] [],
   fun bugs results attempt r hr hap hex => markApplied_marks attempt results bugs r hr hap hex⟩

/-- Witness for the amended C5 at concrete inputs: the attempt-1 invocation
uses `fixTargets` of the attempt-1 scan, and applying `bugA`'s own fix result
marks it fixed at attempt 1. -/
theorem fixEngineer_invocation_and_marking_witness :
    ([bugA] = fixTargets (loopEnvRescan.scan 1))
    ∧ ∃ b ∈ markApplied [bugA] (applyAll [bugA]) 1,
        b.id = bugA.id ∧ b.fixed = true ∧ b.fixedAtAttempt = some 1 := by
  constructor
  · exact (fixEngineer_invocation_and_marking loopEnvRescan).1 (1, [bugA]) (by decide)
  · exact (fixEngineer_invocation_and_marking loopEnvRescan).2 [bugA] (applyAll [bugA]) 1
      { filePath := "a.ts", bugId := 1, description := "", applied := true, error := none }
      (by decide) rfl ⟨bugA, List.mem_singleton_self _, rfl⟩
